import Mathlib

/-!
Verification of the ontrack_v2 career-survey engine against its design
specification.  The repository's scoring backend is consumed through the
frontend service layer (`src/frontend/src/services/api.ts`); education
strings are parsed by the `parseEducation` routines of the result
components.  Strings are modelled as `List Char`; JavaScript's
`String.prototype.split`, `trim` and `toUpperCase` are embedded as
executable functions below.
-/

/-- JavaScript whitespace test used by `String.prototype.trim` (ASCII part). -/
def jsWs (c : Char) : Bool :=
  c = ' ' || c = '\t' || c = '\n' || c = '\r' || c = '\x0b' || c = '\x0c'

/-- JavaScript `s.trim()`: remove leading and trailing whitespace. -/
def jsTrim (s : List Char) : List Char :=
  ((s.dropWhile jsWs).reverse.dropWhile jsWs).reverse

/-- Does `p` occur at the start of `s`? -/
def leadsWith : List Char → List Char → Bool
  | [], _ => true
  | _ :: _, [] => false
  | a :: as, b :: bs => a == b && leadsWith as bs

/-- Fuelled worker for `jsSplit`.  The fuel is always at least the length of
the string being split, so the fuel-exhaustion branch is unreachable. -/
def splitGo (sep : List Char) : Nat → List Char → List (List Char)
  | _, [] => [[]]
  | 0, s => [s]
  | fuel + 1, c :: rest =>
    if sep ≠ [] ∧ leadsWith sep (c :: rest) then
      [] :: splitGo sep fuel ((c :: rest).drop sep.length)
    else
      match splitGo sep fuel rest with
      | [] => [[c]]
      | seg :: segs => (c :: seg) :: segs

/-- JavaScript `s.split(sep)` for a non-empty separator `sep`. -/
def jsSplit (sep s : List Char) : List (List Char) :=
  splitGo sep s.length s

/-- Join a list of segments with the separator between consecutive segments
(the inverse direction of `jsSplit`). -/
def joinSep (sep : List Char) : List (List Char) → List Char
  | [] => []
  | [x] => x
  | x :: y :: ys => x ++ sep ++ joinSep sep (y :: ys)

/-- JavaScript `x || ''` applied to a string-or-undefined slot, where the
absent slot has already been replaced by `[]`: the empty string is falsy and
is replaced by the empty string, so this is extensionally the identity. -/
def orEmpty (l : List Char) : List Char :=
  if l.isEmpty then [] else l

/-- The double-slash delimiter used by `parseEducation` in
`src/unnamed/part_012` and `RecommendedIndustry.tsx` (lines 214-223 and
458-467). -/
def dSlash : List Char := ("//").data

/-- The single-pipe delimiter used by `parseEducation` in
`RecommendedIndustry.tsx` (lines 48-66). -/
def dPipe : List Char := ("|").data

/-- The double-dash delimiter variant that the specification reports as
observed in the dataset; no parsing routine in the source uses it. -/
def dDash : List Char := ("--").data

/-- Structured education fields extracted from `educationRaw`. -/
structure EducationInfo where
  program : List Char
  jupasCode : List Char
  school : List Char
  score : List Char
deriving DecidableEq, Repr

/-- The all-empty education record returned for a falsy input string. -/
def emptyEducation : EducationInfo := ⟨[], [], [], []⟩

/-- Common body of every `parseEducation` routine in the source:
`educationString.split(delim).map(part => part.trim())`, then each field is
`parts[i] || ''`. -/
def parseWith (delim s : List Char) : EducationInfo :=
  let parts := (jsSplit delim s).map jsTrim
  { program := orEmpty (parts.getD 0 [])
    jupasCode := orEmpty (parts.getD 1 [])
    school := orEmpty (parts.getD 2 [])
    score := orEmpty (parts.getD 3 []) }

/-- `parseEducation` as written in `src/unnamed/part_012` (and the identical
variants at `RecommendedIndustry.tsx` lines 214-223 and 458-467): a falsy
(empty) input short-circuits to the all-empty record, otherwise the string is
split on `'//'`. -/
def parseEducationDS (s : List Char) : EducationInfo :=
  if s.isEmpty then emptyEducation else parseWith dSlash s

/-- `parseEducation` as written in `RecommendedIndustry.tsx` lines 48-66:
the string is split on `'|'`; the surrounding `try/catch` is unreachable
because `split`, `map` and `trim` are total on strings. -/
def parseEducationPipe (s : List Char) : EducationInfo :=
  parseWith dPipe s

/-- Stated from the specification's words (§4.5): the `i`-th field is the
whitespace-trimmed `i`-th segment of the string split on the delimiter, and
an absent segment defaults to the empty string. -/
def segField (delim s : List Char) (i : Nat) : List Char :=
  jsTrim ((jsSplit delim s).getD i [])

/-- Stated from the specification's words (§4.5): the four fields of the
education record are the first four trimmed segments, in order. -/
def specEducation (delim s : List Char) : EducationInfo :=
  ⟨segField delim s 0, segField delim s 1, segField delim s 2, segField delim s 3⟩

/-! ### The survey-submission service (`src/frontend/src/services/api.ts`) -/

/-- Six RIASEC score slots of a result's `riasecScores` object. -/
structure RiasecScores where
  R : ℚ
  I : ℚ
  A : ℚ
  S : ℚ
  E : ℚ
  C : ℚ
deriving DecidableEq, Repr

/-- The `personality` part of an analysis result, as shaped by the service
layer and `getFallbackResult`. -/
structure PersonalityData where
  type : String
  description : String
  interpretation : String
  enjoyment : List String
  your_strength : List String
  iconId : String
  riasecScores : RiasecScores
deriving DecidableEq, Repr

/-- One entry of the `industries` list of an analysis result. -/
structure IndustryData where
  id : String
  name : String
  overview : String
  trending : String
  insight : String
  examplePaths : List String
  education : String
deriving DecidableEq, Repr

/-- A parsed response object as the service layer sees it.  A field is `none`
when it is absent or falsy (`!data.personality` / `!data.industries` holds),
and `some` when it is present and truthy; an empty `industries` array is a
truthy value and is therefore `some []`. -/
structure WireResult where
  personality : Option PersonalityData
  industries : Option (List IndustryData)
deriving DecidableEq, Repr

/-- The body of an HTTP response after `JSON.parse`, quotiented by the
truthiness tests the service performs on it. -/
inductive ResponseBody where
  /-- `JSON.parse(xhr.responseText)` throws. -/
  | unparsable
  /-- The body parses to a falsy value (`null`, `false`, `0`, `""`). -/
  | falsyValue
  /-- The body parses to a truthy non-object (number, string, `true`). -/
  | nonObject
  /-- The body parses to an object; its two result fields are classified by
  truthiness. -/
  | object (w : WireResult)
deriving DecidableEq, Repr

/-- One complete backend interaction as observed by the `XMLHttpRequest`
handlers: `onload` with a status and body, `onerror`, or `ontimeout`. -/
inductive BackendOutcome where
  | loaded (status : Nat) (body : ResponseBody)
  | networkError
  | timedOut
deriving DecidableEq, Repr

/-- The fixed `personality` object of `getFallbackResult`. -/
def fallbackPersonality : PersonalityData where
  type := "RI"
  description := "You are a logical and analytical thinker with a strong interest in understanding how things work."
  interpretation := "Your combination of Realistic and Investigative traits suggests you enjoy solving practical problems through analysis and research."
  enjoyment := ["Working with technical systems",
                "Analyzing complex problems",
                "Learning new technical skills"]
  your_strength := ["Logical thinking",
                    "Problem-solving",
                    "Technical aptitude"]
  iconId := "1"
  riasecScores := { R := 5, I := 4, A := 2, S := 1, E := 3, C := 2 }

/-- The fixed industry entry of `getFallbackResult`. -/
def fallbackIndustry : IndustryData where
  id := "RIA"
  name := "Engineering"
  overview := "Engineering involves applying scientific and mathematical principles to design and build systems, structures, and products."
  trending := "Software engineering, biomedical engineering, and renewable energy engineering are rapidly growing fields."
  insight := "Engineers are in high demand across various sectors, with opportunities for specialization and advancement."
  examplePaths := ["Software Engineer",
                   "Mechanical Engineer",
                   "Civil Engineer"]
  education := "Bachelor's degree in engineering or related field, with professional certification often required."

/-- `getFallbackResult()`: the fixed result substituted for an unusable
response (`api.ts` lines 272-306). -/
def getFallbackResult : WireResult where
  personality := some fallbackPersonality
  industries := some [fallbackIndustry]

/-- The `xhr.onload` / `onerror` / `ontimeout` handlers of
`submitSurveyAndGetAnalysis` (`api.ts` lines 111-179) as one function from
the backend outcome to the value passed to `resolve`; a `reject` would be an
`Except.error`, and no branch performs one. -/
def deliverResponse : BackendOutcome → Except String WireResult
  | .loaded status body =>
    if 200 ≤ status ∧ status < 300 then
      match body with
      | .unparsable => .ok getFallbackResult
      | .falsyValue => .ok getFallbackResult
      | .nonObject => .ok getFallbackResult
      | .object w =>
        if w.personality.isSome ∧ w.industries.isSome then .ok w
        else .ok getFallbackResult
    else
      match body with
      | .object w =>
        if w.personality.isSome ∧ w.industries.isSome then .ok w
        else .ok getFallbackResult
      | _ => .ok getFallbackResult
  | .networkError => .ok getFallbackResult
  | .timedOut => .ok getFallbackResult

/-- A raw answer value as submitted by the UI: a string, or a non-string
value. -/
inductive RawAnswer where
  | str (s : List Char)
  | nonString
deriving DecidableEq, Repr

/-- JavaScript `s.toUpperCase()` on the ASCII range. -/
def upperL (l : List Char) : List Char := l.map Char.toUpper

/-- The per-answer normalization of `submitSurveyAndGetAnalysis`
(`api.ts` lines 80-86): a non-string answer is replaced by `''` with a
console warning, a string answer is uppercased. -/
def normalizeAnswer : RawAnswer → List Char
  | .nonString => []
  | .str s => upperL s

/-- The request body field `answers` sent to the backend. -/
def normalizedRequest (answers : List RawAnswer) : List (List Char) :=
  answers.map normalizeAnswer

/-- `submitSurveyAndGetAnalysis(answers)` (`api.ts` lines 72-269): the
normalized answers are posted, and the promise settles as the handlers
dictate; the delivered value does not depend on the answers themselves. -/
def submitSurveyAndGetAnalysis (answers : List RawAnswer)
    (outcome : BackendOutcome) : Except String WireResult :=
  deliverResponse outcome

/-- Does the outcome carry a structurally usable result body: an object with
truthy `personality` and `industries` fields? -/
def usableBody : BackendOutcome → Bool
  | .loaded _ (.object w) => w.personality.isSome && w.industries.isSome
  | _ => false

/-- The response body carried by an outcome, when there is one. -/
def carriedBody : BackendOutcome → Option WireResult
  | .loaded _ (.object w) => some w
  | _ => none

/-- Modelled from the spec: the backend scoring engine is not part of the
files under `src/`; per §4.4 and §4.6 every result object it emits has a
non-empty `industries` list (the Result Assembler fails loudly otherwise),
so any outcome produced by a spec-conforming backend satisfies this
predicate. -/
def backendEmitsCompleteResults (o : BackendOutcome) : Prop :=
  ∀ w, carriedBody o = some w → ∀ inds, w.industries = some inds → inds ≠ []

/-- The score-axis domain `[0, 1]` that `CareerPersonalityAnalysis.tsx`
fixes for the RIASEC radar chart (`PolarRadiusAxis ... domain={[0, 1]}`,
line 116). -/
def radarDomain : ℚ × ℚ := (0, 1)

/-! ### The scoring engine components absent from `src/`

The Python backend that implements `score()` is not among the source files;
only its frontend callers are.  The Answer Validator (§4.1), Trait
Aggregator (§4.2) and Code Deriver (§4.3) are therefore modelled from the
specification text. -/

/-- A normalized yes/no answer value. -/
inductive YN where
  | yes
  | no
deriving DecidableEq, Repr

/-- Modelled from the spec: §4.1 Answer Validator token handling — the value
is normalized case-insensitively, and any value not recognized as `YES`/`NO`
after normalization is treated as `NO` with a recorded warning (the `Bool`
component). -/
def classifyAnswer (a : List Char) : YN × Bool :=
  let u := upperL a
  if u = ("YES").data then (.yes, false)
  else if u = ("NO").data then (.no, false)
  else (.no, true)

/-- Modelled from the spec: §4.1 Answer Validator — given the raw sequence
and the question count `n`, fail with a `ValidationError` exactly on a
length mismatch, otherwise produce the normalized `AnswerVector` together
with the number of recorded warnings. -/
def validateAnswers (answers : List (List Char)) (n : Nat) :
    Except Unit (List YN × Nat) :=
  if answers.length = n then
    .ok (answers.map (fun a => (classifyAnswer a).1),
         (answers.filter (fun a => (classifyAnswer a).2)).length)
  else .error ()

/-- One of the six RIASEC traits. -/
inductive Trait where
  | R
  | I
  | A
  | S
  | E
  | C
deriving DecidableEq, Repr, Fintype

/-- Position of a trait in the canonical order `R<I<A<S<E<C` (§4.3). -/
def canonIdx : Trait → Nat
  | .R => 0
  | .I => 1
  | .A => 2
  | .S => 3
  | .E => 4
  | .C => 5

/-- The six traits in canonical order. -/
def allTraits : List Trait := [.R, .I, .A, .S, .E, .C]

/-- A question as the engine sees it: the set of traits it contributes to
when answered affirmatively (§3 Question). -/
structure SpecQuestion where
  traits : List Trait
deriving DecidableEq, Repr

/-- Modelled from the spec: §4.2 — the number of questions tagged with a
trait, the maximum possible raw count for that trait. -/
def taggedCount (qs : List SpecQuestion) (t : Trait) : Nat :=
  (qs.filter (fun q => decide (t ∈ q.traits))).length

/-- Modelled from the spec: §4.2 Trait Aggregator — for each question
answered `YES`, every trait the question is tagged with gains one raw
count. -/
def rawScore (qs : List SpecQuestion) (ans : List YN) (t : Trait) : Nat :=
  ((qs.zip ans).filter
    (fun p => decide (t ∈ p.1.traits) && decide (p.2 = YN.yes))).length

/-- Modelled from the spec: §4.2 normalization — each trait's raw count
divided by its tagged-question count, giving a value in `[0, 1]`, and `0`
for a trait with no tagged questions. -/
def normScore (qs : List SpecQuestion) (ans : List YN) (t : Trait) : ℚ :=
  if taggedCount qs t = 0 then 0
  else (rawScore qs ans t : ℚ) / (taggedCount qs t : ℚ)

/-- Modelled from the spec: §4.3 — `u` precedes `t` in the sort used by the
Code Deriver when its normalized score is strictly larger, or the scores tie
and `u` is earlier in the canonical order. -/
def beats (s : Trait → ℚ) (u t : Trait) : Bool :=
  decide (s t < s u) || (decide (s u = s t) && decide (canonIdx u < canonIdx t))

/-- Select, among `t` and the traits of `l`, the one that beats all
others. -/
def pickFrom (s : Trait → ℚ) (t : Trait) : List Trait → Trait
  | [] => t
  | u :: us =>
    let v := pickFrom s u us
    if beats s v t then v else t

/-- Modelled from the spec: §4.3 — the dominant trait: the maximum of the
six normalized scores, ties resolved toward the canonical order. -/
def firstTrait (s : Trait → ℚ) : Trait :=
  pickFrom s .R [.I, .A, .S, .E, .C]

/-- The five traits other than the given one, in canonical order, presented
as a head and a tail so that the remainder is manifestly non-empty. -/
def others : Trait → Trait × List Trait
  | .R => (.I, [.A, .S, .E, .C])
  | .I => (.R, [.A, .S, .E, .C])
  | .A => (.R, [.I, .S, .E, .C])
  | .S => (.R, [.I, .A, .E, .C])
  | .E => (.R, [.I, .A, .S, .C])
  | .C => (.R, [.I, .A, .S, .E])

/-- Modelled from the spec: §4.3 — the second-most dominant trait: the best
of the five remaining traits, ties resolved toward the canonical order, so
the two code letters are always distinct. -/
def secondTrait (s : Trait → ℚ) : Trait :=
  pickFrom s (others (firstTrait s)).1 (others (firstTrait s)).2

/-- Modelled from the spec: §4.3 Code Deriver — the dominant trait followed
by the second-most dominant trait. -/
def deriveCode (s : Trait → ℚ) : Trait × Trait :=
  (firstTrait s, secondTrait s)

/-- The letter of a trait. -/
def traitChar : Trait → Char
  | .R => 'R'
  | .I => 'I'
  | .A => 'A'
  | .S => 'S'
  | .E => 'E'
  | .C => 'C'

/-- The two-letter `PersonalityCode` string of a derived trait pair. -/
def codeString (p : Trait × Trait) : List Char :=
  [traitChar p.1, traitChar p.2]

/-- The six questions of the specification's tie-break scenario (§8), each
tagged with a single distinct trait in canonical order. -/
def scenarioQuestions : List SpecQuestion :=
  [⟨[.R]⟩, ⟨[.I]⟩, ⟨[.A]⟩, ⟨[.S]⟩, ⟨[.E]⟩, ⟨[.C]⟩]

/-- The answers `[YES, YES, NO, NO, NO, NO]` of the tie-break scenario. -/
def scenarioAnswers : List YN :=
  [.yes, .yes, .no, .no, .no, .no]

/-! ### Lemmas about splitting and joining -/

theorem orEmpty_eq (l : List Char) : orEmpty l = l := by
  cases l <;> simp [orEmpty]

theorem jsTrim_nil : jsTrim [] = [] := rfl

theorem getD_map_jsTrim (l : List (List Char)) (i : Nat) :
    (l.map jsTrim).getD i [] = jsTrim (l.getD i []) := by
  induction l generalizing i with
  | nil => cases i <;> rfl
  | cons x xs ih =>
    cases i with
    | zero => simp
    | succ n => simpa using ih n

theorem parseWith_eq_spec (delim s : List Char) :
    parseWith delim s = specEducation delim s := by
  simp only [parseWith, specEducation, segField, orEmpty_eq, getD_map_jsTrim]

theorem specEducation_nil (delim : List Char) :
    specEducation delim [] = emptyEducation := rfl

theorem parse_ds_spec (s : List Char) :
    parseEducationDS s = specEducation dSlash s := by
  by_cases h : s.isEmpty
  · have hs : s = [] := by cases s <;> simp_all
    subst hs
    simp [parseEducationDS, specEducation_nil, emptyEducation]
  · simp [parseEducationDS, h, parseWith_eq_spec]

theorem parse_pipe_spec (s : List Char) :
    parseEducationPipe s = specEducation dPipe s :=
  parseWith_eq_spec dPipe s

theorem splitGo_ne_nil (sep : List Char) (fuel : Nat) (s : List Char) :
    splitGo sep fuel s ≠ [] := by
  cases fuel with
  | zero => cases s <;> simp [splitGo]
  | succ f =>
    cases s with
    | nil => simp [splitGo]
    | cons c rest =>
      simp only [splitGo]
      split
      · simp
      · split <;> simp

theorem leadsWith_eq (p : List Char) :
    ∀ s : List Char, leadsWith p s = true → p ++ s.drop p.length = s := by
  induction p with
  | nil => intro s _; simp
  | cons a as ih =>
    intro s h
    cases s with
    | nil => simp [leadsWith] at h
    | cons b bs =>
      simp only [leadsWith, Bool.and_eq_true, beq_iff_eq] at h
      obtain ⟨rfl, h2⟩ := h
      simpa using ih bs h2

theorem joinSep_cons (sep : List Char) (c : Char) (seg : List Char)
    (segs : List (List Char)) :
    joinSep sep ((c :: seg) :: segs) = c :: joinSep sep (seg :: segs) := by
  cases segs <;> simp [joinSep]

theorem joinSep_splitGo (sep : List Char) :
    ∀ (fuel : Nat) (s : List Char), s.length ≤ fuel →
      joinSep sep (splitGo sep fuel s) = s := by
  intro fuel
  induction fuel with
  | zero =>
    intro s hs
    have hnil : s = [] := by
      cases s with
      | nil => rfl
      | cons c r => simp at hs
    subst hnil
    simp [splitGo, joinSep]
  | succ fuel ih =>
    intro s hs
    cases s with
    | nil => simp [splitGo, joinSep]
    | cons c rest =>
      simp only [splitGo]
      split
      · rename_i hcond
        obtain ⟨h0, h1⟩ := hcond
        have hlen : ((c :: rest).drop sep.length).length ≤ fuel := by
          have hsl : 0 < sep.length := List.length_pos.mpr h0
          simp only [List.length_drop, List.length_cons]
          simp only [List.length_cons] at hs
          omega
        have hrec := ih ((c :: rest).drop sep.length) hlen
        obtain ⟨t, ts, hts⟩ := List.exists_cons_of_ne_nil
          (splitGo_ne_nil sep fuel ((c :: rest).drop sep.length))
        rw [hts] at hrec
        simp only [hts, joinSep, List.nil_append]
        rw [hrec]
        exact leadsWith_eq sep (c :: rest) h1
      · obtain ⟨seg, segs, hss⟩ := List.exists_cons_of_ne_nil
          (splitGo_ne_nil sep fuel rest)
        have hrec := ih rest (by simp only [List.length_cons] at hs; omega)
        rw [hss] at hrec
        simp only [hss]
        rw [joinSep_cons, hrec]

theorem joinSep_jsSplit (sep s : List Char) :
    joinSep sep (jsSplit sep s) = s :=
  joinSep_splitGo sep s.length s (Nat.le_refl _)

theorem list_eq_four {α : Type} (l : List α) (h : l.length = 4) :
    ∃ a b c d, l = [a, b, c, d] := by
  rcases l with _ | ⟨a, _ | ⟨b, _ | ⟨c, _ | ⟨d, _ | ⟨e, rest⟩⟩⟩⟩⟩ <;> simp_all

/-! ### Education-parser claims -/

/-- C3: every `parseEducation` routine returns the whitespace-trimmed
segments of the input split on its declared delimiter, in order, each absent
segment (all four for the empty string) defaulting to the empty string; the
routines are total, so parsing never fails. -/
theorem C3_parse_is_trimmed_segments :
    (∀ s, parseEducationDS s = specEducation dSlash s ∧
          parseEducationPipe s = specEducation dPipe s) ∧
    parseEducationDS [] = emptyEducation ∧
    parseEducationPipe [] = emptyEducation := by
  refine ⟨fun s => ⟨parse_ds_spec s, parse_pipe_spec s⟩, rfl, ?_⟩
  decide

/-- C4: for a well-formed education string — one whose split on the `'//'`
delimiter has exactly four segments, each already whitespace-normal — the
four parsed fields re-joined with that delimiter reproduce the original
string exactly. -/
theorem C4_education_round_trip (s : List Char)
    (h4 : (jsSplit dSlash s).length = 4)
    (htrim : ∀ p ∈ jsSplit dSlash s, jsTrim p = p) :
    joinSep dSlash [(parseEducationDS s).program, (parseEducationDS s).jupasCode,
      (parseEducationDS s).school, (parseEducationDS s).score] = s := by
  obtain ⟨p0, p1, p2, p3, hsplit⟩ := list_eq_four _ h4
  have e0 : jsTrim p0 = p0 := htrim p0 (by rw [hsplit]; simp)
  have e1 : jsTrim p1 = p1 := htrim p1 (by rw [hsplit]; simp)
  have e2 : jsTrim p2 = p2 := htrim p2 (by rw [hsplit]; simp)
  have e3 : jsTrim p3 = p3 := htrim p3 (by rw [hsplit]; simp)
  have hfields : parseEducationDS s = ⟨p0, p1, p2, p3⟩ := by
    rw [parse_ds_spec]
    simp [specEducation, segField, hsplit, e0, e1, e2, e3]
  have hjoin := joinSep_jsSplit dSlash s
  rw [hsplit] at hjoin
  rw [hfields]
  exact hjoin

/-- Witness for C4 on the concrete well-formed string
`CS//JS1111//HKU//25`. -/
theorem C4_education_round_trip_witness :
    (jsSplit dSlash (("CS//JS1111//HKU//25").data)).length = 4 ∧
    joinSep dSlash
      [(parseEducationDS (("CS//JS1111//HKU//25").data)).program,
       (parseEducationDS (("CS//JS1111//HKU//25").data)).jupasCode,
       (parseEducationDS (("CS//JS1111//HKU//25").data)).school,
       (parseEducationDS (("CS//JS1111//HKU//25").data)).score]
      = ("CS//JS1111//HKU//25").data :=
  ⟨by decide,
   C4_education_round_trip (("CS//JS1111//HKU//25").data) (by decide) (by decide)⟩

/-- C9 counterexample: the `parseEducation` at `RecommendedIndustry.tsx`
lines 48-66 splits on the single-pipe token: on the input `a|b` it
produces the fields `a` and `b`, which is not the result of splitting on
`'//'` nor of splitting on `'--'`. -/
theorem C9_counterexample :
    parseEducationPipe (("a|b").data) = ⟨("a").data, ("b").data, [], []⟩ ∧
    parseEducationPipe (("a|b").data) ≠ specEducation dSlash (("a|b").data) ∧
    parseEducationPipe (("a|b").data) ≠ specEducation dDash (("a|b").data) := by
  refine ⟨by decide, by decide, by decide⟩

/-- C9 amended: every education-string parsing routine splits on one fixed
delimiter, which is the double-slash token for the `part_012` /
`RecommendedIndustry.tsx` (lines 214-223, 458-467) variants and the
single-pipe token for the `RecommendedIndustry.tsx` (lines 48-66) variant —
a token distinct from both delimiters named by the claim; no routine splits
on the double-dash token. -/
theorem C9_amended_delimiters :
    (∀ s, parseEducationDS s = specEducation dSlash s) ∧
    (∀ s, parseEducationPipe s = specEducation dPipe s) ∧
    dPipe ≠ dSlash ∧ dPipe ≠ dDash ∧ dSlash ≠ dDash :=
  ⟨parse_ds_spec, parse_pipe_spec, by decide, by decide, by decide⟩

/-! ### Submission-service lemmas -/

theorem deliverResponse_total (o : BackendOutcome) :
    ∃ r, deliverResponse o = .ok r := by
  cases o with
  | loaded status body =>
    cases body with
    | unparsable => simp only [deliverResponse]; split <;> exact ⟨_, rfl⟩
    | falsyValue => simp only [deliverResponse]; split <;> exact ⟨_, rfl⟩
    | nonObject => simp only [deliverResponse]; split <;> exact ⟨_, rfl⟩
    | object w =>
      simp only [deliverResponse]
      split <;> split <;> exact ⟨_, rfl⟩
  | networkError => exact ⟨_, rfl⟩
  | timedOut => exact ⟨_, rfl⟩

theorem getFallbackResult_complete :
    getFallbackResult.personality.isSome ∧ getFallbackResult.industries.isSome :=
  ⟨rfl, rfl⟩

theorem deliverResponse_complete (o : BackendOutcome) (r : WireResult)
    (h : deliverResponse o = .ok r) :
    r.personality.isSome ∧ r.industries.isSome := by
  cases o with
  | loaded status body =>
    cases body with
    | unparsable =>
      simp only [deliverResponse] at h
      split at h <;> (injection h with h; subst h; exact getFallbackResult_complete)
    | falsyValue =>
      simp only [deliverResponse] at h
      split at h <;> (injection h with h; subst h; exact getFallbackResult_complete)
    | nonObject =>
      simp only [deliverResponse] at h
      split at h <;> (injection h with h; subst h; exact getFallbackResult_complete)
    | object w =>
      simp only [deliverResponse] at h
      split at h <;> split at h <;>
        first
        | (rename_i hc
           injection h with h
           subst h
           exact ⟨hc.1, hc.2⟩)
        | (injection h with h
           subst h
           exact getFallbackResult_complete)
  | networkError =>
    injection h with h
    subst h
    exact getFallbackResult_complete
  | timedOut =>
    injection h with h
    subst h
    exact getFallbackResult_complete

theorem deliverResponse_fallback (o : BackendOutcome)
    (hu : usableBody o = false) :
    deliverResponse o = .ok getFallbackResult := by
  cases o with
  | loaded status body =>
    cases body with
    | unparsable => simp only [deliverResponse]; split <;> rfl
    | falsyValue => simp only [deliverResponse]; split <;> rfl
    | nonObject => simp only [deliverResponse]; split <;> rfl
    | object w =>
      simp only [usableBody] at hu
      simp only [deliverResponse]
      split <;> split <;>
        first
        | rfl
        | (rename_i hc
           rw [hc.1, hc.2] at hu
           exact Bool.noConfusion hu)
  | networkError => rfl
  | timedOut => rfl

theorem deliverResponse_industries (o : BackendOutcome) (r : WireResult)
    (hb : backendEmitsCompleteResults o) (h : deliverResponse o = .ok r) :
    ∃ inds, r.industries = some inds ∧ 1 ≤ inds.length := by
  have hfb : ∃ inds, getFallbackResult.industries = some inds ∧ 1 ≤ inds.length :=
    ⟨[fallbackIndustry], rfl, by simp⟩
  cases o with
  | loaded status body =>
    cases body with
    | unparsable =>
      simp only [deliverResponse] at h
      split at h <;> (injection h with h; subst h; exact hfb)
    | falsyValue =>
      simp only [deliverResponse] at h
      split at h <;> (injection h with h; subst h; exact hfb)
    | nonObject =>
      simp only [deliverResponse] at h
      split at h <;> (injection h with h; subst h; exact hfb)
    | object w =>
      simp only [deliverResponse] at h
      split at h <;> split at h <;>
        first
        | (rename_i hc
           injection h with h
           subst h
           obtain ⟨inds, hi⟩ := Option.isSome_iff_exists.mp hc.2
           refine ⟨inds, hi, ?_⟩
           have hne : inds ≠ [] := hb w rfl inds hi
           have := List.length_pos.mpr hne
           omega)
        | (injection h with h
           subst h
           exact hfb)
  | networkError =>
    injection h with h
    subst h
    exact hfb
  | timedOut =>
    injection h with h
    subst h
    exact hfb

/-! ### Submission-service claims -/

/-- C10: `submitSurveyAndGetAnalysis` never rejects — every backend outcome
(any HTTP status, unparsable body, missing fields, network error, timeout)
resolves with a result, and every outcome that does not carry a structurally
usable body resolves with the fixed fallback result, whose personality type
is `RI` and whose single industry is `Engineering`. -/
theorem C10_never_rejects (answers : List RawAnswer) (outcome : BackendOutcome) :
    (∃ r, submitSurveyAndGetAnalysis answers outcome = .ok r) ∧
    (usableBody outcome = false →
      submitSurveyAndGetAnalysis answers outcome = .ok getFallbackResult) ∧
    getFallbackResult.personality = some fallbackPersonality ∧
    fallbackPersonality.type = "RI" ∧
    getFallbackResult.industries = some [fallbackIndustry] ∧
    fallbackIndustry.name = "Engineering" :=
  ⟨deliverResponse_total outcome,
   fun hu => deliverResponse_fallback outcome hu, rfl, rfl, rfl, rfl⟩

/-- Witness for C10 at a concrete unusable outcome (a timeout). -/
theorem C10_never_rejects_witness :
    submitSurveyAndGetAnalysis [] BackendOutcome.timedOut
      = .ok getFallbackResult :=
  (C10_never_rejects [] BackendOutcome.timedOut).2.1 rfl

/-- C6: every result the caller receives has both its `personality` and its
`industries` fields present and truthy — the caller never receives a
half-filled result, whatever the backend outcome. -/
theorem C6_no_half_filled_result (answers : List RawAnswer)
    (outcome : BackendOutcome) (r : WireResult)
    (h : submitSurveyAndGetAnalysis answers outcome = .ok r) :
    r.personality.isSome ∧ r.industries.isSome :=
  deliverResponse_complete outcome r h

/-- Witness for C6 at a concrete outcome (a network error). -/
theorem C6_no_half_filled_result_witness :
    getFallbackResult.personality.isSome ∧ getFallbackResult.industries.isSome :=
  C6_no_half_filled_result [] BackendOutcome.networkError getFallbackResult rfl

/-- C2: for any submission against a backend whose emitted result bodies
satisfy the specification's completeness invariant (§4.4/§4.6: a carried
`industries` list is never empty), the delivered result always has at least
one industry — on the fallback path exactly one. -/
theorem C2_industries_nonempty (answers : List RawAnswer)
    (outcome : BackendOutcome) (r : WireResult)
    (hb : backendEmitsCompleteResults outcome)
    (h : submitSurveyAndGetAnalysis answers outcome = .ok r) :
    ∃ inds, r.industries = some inds ∧ 1 ≤ inds.length :=
  deliverResponse_industries outcome r hb h

/-- Witness for C2 at a concrete outcome (a network error, which carries no
body, so the backend invariant holds vacuously). -/
theorem C2_industries_nonempty_witness :
    ∃ inds, getFallbackResult.industries = some inds ∧ 1 ≤ inds.length :=
  C2_industries_nonempty [] BackendOutcome.networkError getFallbackResult
    (by intro w hw; simp [carriedBody] at hw) rfl

/-- C1 counterexample: an answer array of length `N - 1` (here `N = 2`)
submitted while the backend answers with an error status and an unusable
body does not produce a `ValidationError` for the caller: the call resolves
with the fallback `AnalysisResult`. -/
theorem C1_counterexample :
    submitSurveyAndGetAnalysis [RawAnswer.str (("YES").data)]
      (.loaded 422 .unparsable) = .ok getFallbackResult ∧
    (¬ ∃ e, submitSurveyAndGetAnalysis [RawAnswer.str (("YES").data)]
      (.loaded 422 .unparsable) = .error e) ∧
    [RawAnswer.str (("YES").data)].length = 2 - 1 := by
  have h1 : submitSurveyAndGetAnalysis [RawAnswer.str (("YES").data)]
      (.loaded 422 .unparsable) = .ok getFallbackResult := rfl
  refine ⟨h1, ?_, rfl⟩
  rintro ⟨e, he⟩
  rw [h1] at he
  exact Except.noConfusion he

/-- C1 amended: `submitSurveyAndGetAnalysis` never delivers a
`ValidationError`: for every answer array of length `N - 1` and every
backend outcome it resolves with an `AnalysisResult` (the backend's
validation failure is absorbed and replaced by the fallback result). -/
theorem C1_amended_no_validation_error (answers : List RawAnswer) (n : Nat)
    (outcome : BackendOutcome) (hlen : answers.length = n - 1) :
    ∃ r, submitSurveyAndGetAnalysis answers outcome = .ok r :=
  deliverResponse_total outcome

/-- Witness for the amended C1 at a concrete length-1 array against `N = 2`. -/
theorem C1_amended_witness :
    ∃ r, submitSurveyAndGetAnalysis [RawAnswer.str (("YES").data)]
      BackendOutcome.networkError = .ok r :=
  C1_amended_no_validation_error [RawAnswer.str (("YES").data)] 2
    BackendOutcome.networkError rfl

/-- C7: on the failing input — any outcome that triggers the fallback, here
a network error — the delivered result's `riasecScores.R` is the raw-count
constant `5`, outside the `[0, 1]` interval that the claim asserts and that
the radar chart of `CareerPersonalityAnalysis.tsx` fixes as its score-axis
domain. -/
theorem C7_fallback_score_out_of_range :
    submitSurveyAndGetAnalysis [] BackendOutcome.networkError
      = .ok getFallbackResult ∧
    getFallbackResult.personality = some fallbackPersonality ∧
    fallbackPersonality.riasecScores.R = 5 ∧
    ¬(radarDomain.1 ≤ fallbackPersonality.riasecScores.R ∧
      fallbackPersonality.riasecScores.R ≤ radarDomain.2) := by
  refine ⟨rfl, rfl, rfl, ?_⟩
  rintro ⟨h1, h2⟩
  norm_num [radarDomain, fallbackPersonality] at h2

/-! ### Code-deriver lemmas -/

theorem beats_iff (s : Trait → ℚ) (u t : Trait) :
    beats s u t = true ↔ s t < s u ∨ (s u = s t ∧ canonIdx u < canonIdx t) := by
  simp [beats]

theorem canonIdx_inj : ∀ a b : Trait, canonIdx a = canonIdx b → a = b := by
  decide

theorem beats_trans (s : Trait → ℚ) (a b c : Trait)
    (h1 : beats s a b = true) (h2 : beats s b c = true) : beats s a c = true := by
  rw [beats_iff] at h1 h2 ⊢
  rcases h1 with h1 | ⟨he1, hc1⟩ <;> rcases h2 with h2 | ⟨he2, hc2⟩
  · exact Or.inl (lt_trans h2 h1)
  · exact Or.inl (by rw [← he2]; exact h1)
  · exact Or.inl (by rw [he1]; exact h2)
  · exact Or.inr ⟨he1.trans he2, lt_trans hc1 hc2⟩

theorem beats_connex (s : Trait → ℚ) (a b : Trait) (hne : a ≠ b)
    (h : beats s a b = false) : beats s b a = true := by
  rw [beats_iff]
  rw [Bool.eq_false_iff] at h
  rw [Ne, beats_iff] at h
  push_neg at h
  obtain ⟨h1, h2⟩ := h
  rcases lt_trichotomy (s a) (s b) with hlt | heq | hgt
  · exact Or.inl hlt
  · refine Or.inr ⟨heq.symm, ?_⟩
    have hc := h2 heq
    have hcne : canonIdx a ≠ canonIdx b := fun hc2 => hne (canonIdx_inj a b hc2)
    omega
  · exact absurd h1 (not_le.mpr hgt)

theorem pickFrom_best (s : Trait → ℚ) :
    ∀ (l : List Trait) (t : Trait), ∀ x ∈ t :: l,
      x = pickFrom s t l ∨ beats s (pickFrom s t l) x = true := by
  intro l
  induction l with
  | nil =>
    intro t x hx
    simp at hx
    subst hx
    exact Or.inl rfl
  | cons u us ih =>
    intro t x hx
    simp only [pickFrom]
    split
    · rename_i hb
      rcases List.mem_cons.mp hx with rfl | hx2
      · exact Or.inr hb
      · exact ih u x hx2
    · rename_i hb
      have hb2 : beats s (pickFrom s u us) t = false := by
        simpa using hb
      rcases List.mem_cons.mp hx with rfl | hx2
      · exact Or.inl rfl
      · rcases ih u x hx2 with hxv | hbx
        · by_cases hvt : pickFrom s u us = t
          · exact Or.inl (hxv.trans hvt)
          · refine Or.inr ?_
            rw [hxv]
            exact beats_connex s (pickFrom s u us) t hvt hb2
        · by_cases hvt : pickFrom s u us = t
          · rw [← hvt]
            exact Or.inr hbx
          · exact Or.inr (beats_trans s t (pickFrom s u us) x
              (beats_connex s (pickFrom s u us) t hvt hb2) hbx)

theorem othersMem : ∀ t x : Trait,
    x ∈ (others t).1 :: (others t).2 ↔ x ≠ t := by
  decide

theorem firstTrait_best (s : Trait → ℚ) (x : Trait) :
    x = firstTrait s ∨ beats s (firstTrait s) x = true := by
  have hx : x ∈ Trait.R :: [Trait.I, Trait.A, Trait.S, Trait.E, Trait.C] := by
    cases x <;> simp
  exact pickFrom_best s [Trait.I, Trait.A, Trait.S, Trait.E, Trait.C] Trait.R x hx

theorem secondTrait_best (s : Trait → ℚ) (x : Trait) (hx : x ≠ firstTrait s) :
    x = secondTrait s ∨ beats s (secondTrait s) x = true := by
  have hmem : x ∈ (others (firstTrait s)).1 :: (others (firstTrait s)).2 :=
    (othersMem (firstTrait s) x).mpr hx
  exact pickFrom_best s (others (firstTrait s)).2 (others (firstTrait s)).1 x hmem

theorem beats_of_tie (s : Trait → ℚ) (t u : Trait) (he : s t = s u)
    (hc : canonIdx t < canonIdx u) : beats s u t = false := by
  rw [Bool.eq_false_iff]
  intro hbt
  rw [beats_iff] at hbt
  rcases hbt with h | ⟨h1, h2⟩
  · rw [he] at h
    exact lt_irrefl _ h
  · omega

/-! ### Engine claims -/

/-- C5: the Answer Validator (modelled from §4.1, the backend being absent
from `src/`) normalizes values case-insensitively — classification depends
only on the uppercased value — and for every sequence of the correct length
it accepts, mapping every value not recognized as `YES`/`NO` to `NO` with a
recorded warning instead of rejecting. -/
theorem C5_validator_lenient (answers : List (List Char)) (n : Nat)
    (hlen : answers.length = n) :
    (∃ v w, validateAnswers answers n = .ok (v, w) ∧
       v = answers.map (fun a => (classifyAnswer a).1)) ∧
    (∀ a : List Char, upperL a ≠ ("YES").data → upperL a ≠ ("NO").data →
       classifyAnswer a = (YN.no, true)) ∧
    (∀ a b : List Char, upperL a = upperL b →
       classifyAnswer a = classifyAnswer b) := by
  refine ⟨⟨answers.map (fun a => (classifyAnswer a).1),
          (answers.filter (fun a => (classifyAnswer a).2)).length, ?_, rfl⟩,
         ?_, ?_⟩
  · simp [validateAnswers, hlen]
  · intro a h1 h2
    simp [classifyAnswer, h1, h2]
  · intro a b hab
    simp [classifyAnswer, hab]

/-- Witness for C5 on the concrete submission `[yEs, maybe]` with `N = 2`:
accepted, `yEs` recognized case-insensitively, `maybe` coerced to `NO`. -/
theorem C5_validator_lenient_witness :
    ∃ v w, validateAnswers [("yEs").data, ("maybe").data] 2 = .ok (v, w) ∧
      v = [("yEs").data, ("maybe").data].map (fun a => (classifyAnswer a).1) :=
  (C5_validator_lenient [("yEs").data, ("maybe").data] 2 rfl).1

/-- C8: the Code Deriver's tie-break law (modelled from §4.2-§4.3, the
backend being absent from `src/`): whenever two traits have equal normalized
scores, the one earlier in the canonical order `R<I<A<S<E<C` is chosen
first — the later one is never dominant, and if it is selected second the
earlier one is the dominant trait; on the specification's six-question
scenario with answers `[YES, YES, NO, NO, NO, NO]` the normalized scores are
`R=1, I=1, A=S=E=C=0` and the derived code is `RI`. -/
theorem C8_tie_break_law :
    (∀ (s : Trait → ℚ) (t u : Trait), s t = s u → canonIdx t < canonIdx u →
      firstTrait s ≠ u ∧ (secondTrait s = u → firstTrait s = t)) ∧
    normScore scenarioQuestions scenarioAnswers Trait.R = 1 ∧
    normScore scenarioQuestions scenarioAnswers Trait.I = 1 ∧
    normScore scenarioQuestions scenarioAnswers Trait.A = 0 ∧
    normScore scenarioQuestions scenarioAnswers Trait.S = 0 ∧
    normScore scenarioQuestions scenarioAnswers Trait.E = 0 ∧
    normScore scenarioQuestions scenarioAnswers Trait.C = 0 ∧
    codeString (deriveCode (normScore scenarioQuestions scenarioAnswers))
      = ("RI").data := by
  have htag : ∀ t : Trait, taggedCount scenarioQuestions t = 1 := by decide
  have hnorm : ∀ t : Trait, normScore scenarioQuestions scenarioAnswers t
      = (rawScore scenarioQuestions scenarioAnswers t : ℚ) := by
    intro t
    simp only [normScore, htag t]
    norm_num
  have hrawR : rawScore scenarioQuestions scenarioAnswers Trait.R = 1 := by decide
  have hrawI : rawScore scenarioQuestions scenarioAnswers Trait.I = 1 := by decide
  have hrawA : rawScore scenarioQuestions scenarioAnswers Trait.A = 0 := by decide
  have hrawS : rawScore scenarioQuestions scenarioAnswers Trait.S = 0 := by decide
  have hrawE : rawScore scenarioQuestions scenarioAnswers Trait.E = 0 := by decide
  have hrawC : rawScore scenarioQuestions scenarioAnswers Trait.C = 0 := by decide
  have hsfun : normScore scenarioQuestions scenarioAnswers
      = (fun t => match t with
         | Trait.R => (1 : ℚ)
         | Trait.I => (1 : ℚ)
         | _ => (0 : ℚ)) := by
    funext t
    cases t <;> rw [hnorm] <;>
      simp only [hrawR, hrawI, hrawA, hrawS, hrawE, hrawC] <;> norm_num
  refine ⟨?_,
    by rw [hnorm, hrawR]; norm_num,
    by rw [hnorm, hrawI]; norm_num,
    by rw [hnorm, hrawA]; norm_num,
    by rw [hnorm, hrawS]; norm_num,
    by rw [hnorm, hrawE]; norm_num,
    by rw [hnorm, hrawC]; norm_num,
    by rw [hsfun]; decide⟩
  intro s t u he hc
  have hne : t ≠ u := by
    intro h
    subst h
    exact lt_irrefl _ hc
  have hbf : beats s u t = false := beats_of_tie s t u he hc
  constructor
  · intro hfu
    rcases firstTrait_best s t with hft | hbt
    · exact hne (hft.trans hfu)
    · rw [hfu] at hbt
      rw [hbt] at hbf
      exact Bool.noConfusion hbf
  · intro hsu
    by_cases hft : t = firstTrait s
    · exact hft.symm
    · rcases secondTrait_best s t hft with hst | hbt
      · exact absurd (hst.trans hsu) hne
      · rw [hsu] at hbt
        rw [hbt] at hbf
        exact Bool.noConfusion hbf

/-- Witness for C8's tie-break law at the all-zero score vector with the
tied pair `(R, I)`. -/
theorem C8_tie_break_law_witness :
    firstTrait (fun _ => (0 : ℚ)) ≠ Trait.I ∧
    (secondTrait (fun _ => (0 : ℚ)) = Trait.I →
      firstTrait (fun _ => (0 : ℚ)) = Trait.R) :=
  C8_tie_break_law.1 (fun _ => (0 : ℚ)) Trait.R Trait.I rfl (by decide)
